import Mathlib

/-!
Verification development for the low-roller dice engine.

Shallow embedding of the Rust sources:
  * `engine/src/model.rs`  — data model (`Player`, `Phase`, `State`, `Event`),
  * `engine/src/rules.rs`  — scoring (`face_score`, `sum_score`, `REROLL_EV`),
  * `engine/src/lib.rs`    — turn engine (`init_game`, `roll`, `pick`,
    `end_turn_if_done`, `timeout_autoplay`, `compute_leader_to_beat`,
    `hash_state_stub`),
  * `LowRollerDesktop/engine/src/bot.rs` — the Amateur bot policy.

Embedding conventions:
  * Machine integers (`u8`, `u32`, `u64`, `usize`) become `Nat`; where the
    source wraps (the `wrapping_mul` in seed derivation) an explicit
    `% 2 ^ 64` is inserted. `u8` random draws are truncated with `% 256`.
  * `StdRng` is a deterministic function of its seed; it is modelled by an
    abstract byte stream `rngByte : derivedSeed → drawIndex → byte`.
    Likewise rand's seeded slice shuffle used by `init_game` is modelled by
    an abstract function `shuffle : derivedSeed → list → list`.
  * Fallible operations (Rust `assert!` / indexing panics) return `Option`;
    `none` models a panic. Validation happens at the same point relative to
    state mutation as in the source.
  * `REROLL_EV` is the `f32` constant `3.0`; every use in the source is
    `(REROLL_EV * n as f32).round() as u32` with `n ≤ remaining_dice`, which
    is exactly `3 * n` for all magnitudes that can occur (exact below
    `2 ^ 22`), so it is embedded as the natural number `3`.
-/

namespace LowRoller

/-- `u32::MAX`, the sentinel used by the winner scan and the leader scan. -/
def U32MAX : Nat := 4294967295

/-- `2 ^ 64`, modulus for the `u64` `wrapping_mul` in seed derivation. -/
def UINT64 : Nat := 18446744073709551616

/-- `model.rs`: bot skill level. -/
inductive BotLevel where
  | Amateur
  | Pro
deriving DecidableEq, Repr

/-- `model.rs`: event discriminant. -/
inductive EventType where
  | Roll
  | Pick
  | EndTurn
  | TimeoutAutoplay
  | SuddenDeathRoll
  | GameEnd
deriving DecidableEq, Repr

/-- The `serde_json::Value` payloads actually constructed by the engine,
modelled as a tagged union: `roll` builds `{faces}`, `pick` builds
`{picked, values}`, `end_turn_if_done` builds `{playerIdx, total}` and
`timeout_autoplay` wraps a pick payload as `{chosen, policy}`. -/
inductive Payload where
  | rollP (faces : List Nat)
  | pickP (picked : List Nat) (values : List Nat)
  | endTurnP (playerIdx : Nat) (total : Nat)
  | timeoutP (chosen : Payload) (policy : String)
deriving DecidableEq, Repr

/-- `model.rs`: `Event`. -/
structure Event where
  seq : Nat
  ty : EventType
  payload : Payload
  state_hash : String
deriving DecidableEq, Repr

/-- `model.rs`: `Player`. `picks` stores already-scored values (3s as 0). -/
structure Player where
  id : String
  display : String
  is_bot : Bool
  bot_level : Option BotLevel
  wager_cents : Nat
  total_score : Nat
  picks : List Nat
deriving DecidableEq, Repr

instance : Inhabited Player :=
  ⟨{ id := "", display := "", is_bot := false, bot_level := none,
     wager_cents := 0, total_score := 0, picks := [] }⟩

/-- `model.rs`: `Phase`. -/
inductive Phase where
  | Normal
  | SuddenDeath (ids : List String)
  | Finished
deriving DecidableEq, Repr

/-- `model.rs`: `State`. -/
structure State where
  seed : Nat
  players : List Player
  turn_idx : Nat
  remaining_dice : Nat
  last_faces : List Nat
  must_pick_at_least_one : Bool
  pot_cents : Nat
  phase : Phase
  events_seq : Nat
  per_turn_deadline_ms : Option Nat
  leader_to_beat : Option Nat
deriving DecidableEq, Repr

/-- `rules.rs`: `face_score` — face 3 scores 0, every other face scores
its value. -/
def face_score (face : Nat) : Nat := if face = 3 then 0 else face

/-- `rules.rs`: `sum_score` — sum of `face_score` over a sequence. -/
def sum_score (faces : List Nat) : Nat := (faces.map face_score).sum

/-- `rules.rs`: `REROLL_EV` (`f32` constant `3.0`; see header note on
exactness of `round`). -/
def REROLL_EV : Nat := 3

/-- `lib.rs`: `hash_state_stub` — the placeholder state fingerprint
`"h:{turn_idx}:{remaining_dice}:{players[turn_idx].picks.len()}"`.
The source indexes `players[turn_idx]` (panic when out of bounds); the
total `getD` is only reached on index-valid states in this development. -/
def hash_state_stub (s : State) : String :=
  "h:" ++ toString s.turn_idx ++ ":" ++ toString s.remaining_dice ++ ":"
    ++ toString (s.players.getD s.turn_idx default).picks.length

/-- `lib.rs`: `init_game`. The seeded shuffle is a rand library call,
modelled by an abstract function applied to the derived seed
`seed XOR 0x5EED` (`0x5EED = 24301`). -/
def init_game (shuffle : Nat → List Player → List Player)
    (seed : Nat) (players : List Player) : State :=
  let pot_cents := (players.map Player.wager_cents).sum
  let shuffled := shuffle (Nat.xor seed 24301) players
  { seed := seed, players := shuffled, turn_idx := 0, remaining_dice := 7,
    last_faces := [], must_pick_at_least_one := true, pot_cents := pot_cents,
    phase := Phase.Normal, events_seq := 0, per_turn_deadline_ms := none,
    leader_to_beat := none }

/-- One die face from one random byte: `(rng.gen::<u8>() % 6) + 1`. -/
def genFace (b : Nat) : Nat := b % 256 % 6 + 1

/-- The faces drawn by `roll`: `remaining_dice` bytes from a generator
derived from `seed XOR (events_seq * 7919)`, each mapped through
`genFace`. -/
def rollFaces (rngByte : Nat → Nat → Nat) (s : State) : List Nat :=
  (List.range s.remaining_dice).map
    (fun i => genFace (rngByte (Nat.xor s.seed (s.events_seq * 7919 % UINT64)) i))

/-- The state after a successful `roll`. -/
def rollState (rngByte : Nat → Nat → Nat) (s : State) : State :=
  { s with last_faces := rollFaces rngByte s, must_pick_at_least_one := true,
           events_seq := s.events_seq + 1 }

/-- The `Roll` event (built after the mutation, as in the source). -/
def rollEvent (rngByte : Nat → Nat → Nat) (s : State) : Event :=
  { seq := s.events_seq + 1, ty := EventType.Roll,
    payload := Payload.rollP (rollFaces rngByte s),
    state_hash := hash_state_stub (rollState rngByte s) }

/-- `lib.rs`: `roll`. Asserts (`none` on violation) that the phase is
`Normal` and dice remain, then draws and stores the faces. -/
def roll (rngByte : Nat → Nat → Nat) (s : State) : Option (State × Event) :=
  if s.phase = Phase.Normal then
    if s.remaining_dice = 0 then none
    else some (rollState rngByte s, rollEvent rngByte s)
  else none

/-- Adjacent deduplication, the semantics of `Vec::dedup` (which removes
consecutive duplicates; applied after sorting it removes all). -/
def dedupAdj : List Nat → List Nat
  | [] => []
  | [x] => [x]
  | x :: y :: l => if x = y then dedupAdj (y :: l) else x :: dedupAdj (y :: l)

/-- `idxs.sort_unstable(); idxs.dedup();` from `pick`. -/
def sortDedup (l : List Nat) : List Nat :=
  dedupAdj (List.insertionSort (· ≤ ·) l)

/-- Scored values of the picked offsets (`face_score(state.last_faces[i])`). -/
def pickVals (faces : List Nat) (idxs : List Nat) : List Nat :=
  idxs.map (fun i => face_score (faces.getD i 0))

/-- The unpicked remainder of the roll: faces whose offset is not picked. -/
def remainingFaces (faces : List Nat) (idxs : List Nat) : List Nat :=
  ((List.range faces.length).filter (fun i => ¬ i ∈ idxs)).map (fun i => faces.getD i 0)

/-- The acting player after a pick of (deduplicated) offsets `idxs`: the
scored values are appended to the pick history and the total is recomputed
from the whole history. -/
def pickedPlayer (s : State) (idxs : List Nat) : Player :=
  { s.players.getD s.turn_idx default with
    picks := (s.players.getD s.turn_idx default).picks ++ pickVals s.last_faces idxs,
    total_score := sum_score
      ((s.players.getD s.turn_idx default).picks ++ pickVals s.last_faces idxs) }

/-- The state after a successful `pick` of offsets `idxs`. -/
def pickState (s : State) (idxs : List Nat) : State :=
  { s with players := s.players.set s.turn_idx (pickedPlayer s idxs),
           remaining_dice := (remainingFaces s.last_faces idxs).length,
           last_faces := [], must_pick_at_least_one := false,
           events_seq := s.events_seq + 1 }

/-- The `Pick` event for offsets `idxs`. -/
def pickEvent (s : State) (idxs : List Nat) : Event :=
  { seq := s.events_seq + 1, ty := EventType.Pick,
    payload := Payload.pickP idxs (pickVals s.last_faces idxs),
    state_hash := hash_state_stub (pickState s idxs) }

/-- `lib.rs`: `pick`. Checks, in source order: an active roll exists, the
selection is non-empty, every (sorted, deduplicated) offset is in range,
and `turn_idx` indexes a player; all checks precede every state mutation,
so a failed check (`none`) leaves no successor state. -/
def pick (s : State) (indices : List Nat) : Option (State × Event) :=
  if s.last_faces = [] then none
  else if indices = [] then none
  else if (sortDedup indices).all (fun i => i < s.last_faces.length) then
    if s.turn_idx < s.players.length then
      some (pickState s (sortDedup indices), pickEvent s (sortDedup indices))
    else none
  else none

/-- The winner scan of `end_turn_if_done`: left-to-right over the players
(with their seat index), tracking the lowest total seen and the seats that
attain it; strictly-smaller resets, equal appends. -/
def lowsAux : Nat → List Player → List Nat → Nat → List Nat × Nat
  | _, [], lows, low => (lows, low)
  | i, p :: rest, lows, low =>
    if p.total_score < low then lowsAux (i + 1) rest [i] p.total_score
    else if p.total_score = low then lowsAux (i + 1) rest (lows ++ [i]) low
    else lowsAux (i + 1) rest lows low

/-- The running minimum of the players' totals starting from a sentinel
(`u32::MAX` in the source); the specification-side description of what the
winner scan's `low` computes. -/
def minFold (ps : List Player) (low : Nat) : Nat :=
  ps.foldl (fun m p => min m p.total_score) low

/-- Round evaluation at the end of the last seat's turn: more than one
lowest seat yields `SuddenDeath` with their ids, otherwise `Finished`. -/
def roundPhase (ps : List Player) : Phase :=
  let r := lowsAux 0 ps [] U32MAX
  if 1 < r.1.length then
    Phase.SuddenDeath (r.1.map (fun i => (ps.getD i default).id))
  else Phase.Finished

/-- The state after an `end_turn_if_done` that fired: turn advanced
circularly, turn fields reset, and — when the finishing player sat in the
last seat — the round evaluated. -/
def endTurnState (s : State) : State :=
  let sB := { s with turn_idx := (s.turn_idx + 1) % s.players.length,
                     remaining_dice := 7, last_faces := [],
                     must_pick_at_least_one := true,
                     events_seq := s.events_seq + 1 }
  if s.turn_idx = s.players.length - 1 then
    { sB with phase := roundPhase sB.players }
  else sB

/-- The `EndTurn` event (built before the turn advance, as in the source:
its hash sees the old `turn_idx` and `remaining_dice = 0`). -/
def endTurnEvent (s : State) : Event :=
  { seq := s.events_seq + 1, ty := EventType.EndTurn,
    payload := Payload.endTurnP s.turn_idx
      (s.players.getD s.turn_idx default).total_score,
    state_hash := hash_state_stub { s with events_seq := s.events_seq + 1 } }

/-- `lib.rs`: `end_turn_if_done`. Returns `some (s, none)` (no event, state
untouched) while dice remain; once `remaining_dice = 0` it emits the
`EndTurn` event, advances the turn circularly, resets the turn fields and,
after the last seat, evaluates the round. `none` models the indexing panic
on an invalid `turn_idx`. -/
def end_turn_if_done (s : State) : Option (State × Option Event) :=
  if s.remaining_dice = 0 then
    if s.turn_idx < s.players.length then
      some (endTurnState s, some (endTurnEvent s))
    else none
  else some (s, none)

/-- `bot.rs`: offsets of the faces equal to 3. -/
def threesOf (faces : List Nat) : List Nat :=
  (List.range faces.length).filter (fun i => faces.getD i 0 = 3)

/-- `bot.rs`: the left-to-right first-strict-minimum scan for the lowest
`face_score` offset (`for i in 1..faces.len()`). -/
def lowestIdx (faces : List Nat) : Nat :=
  (List.range' 1 (faces.length - 1)).foldl
    (fun lowest i =>
      if face_score (faces.getD i 0) < face_score (faces.getD lowest 0) then i
      else lowest) 0

/-- `bot.rs`: the additional face-1 offsets other than the chosen lowest. -/
def extraOnesOf (faces : List Nat) (lowest : Nat) : List Nat :=
  (List.range faces.length).filter (fun i => i ≠ lowest ∧ faces.getD i 0 = 1)

/-- `bot.rs`: the Amateur policy's projected end-of-turn score
`ev_line = current_total + added + (REROLL_EV * remaining_after).round()`
with `current_total` the sum of the acting player's banked pick values,
`added = 1 * |other face-1 offsets| + face_score(faces[lowest])`, and
`remaining_after = remaining_dice - picks.len()` computed while `picks`
is still the single tentative lowest-die selection, i.e.
`remaining_dice - 1`. -/
def amateurEvLine (s : State) : Nat :=
  (s.players.getD s.turn_idx default).picks.sum
    + (1 * (extraOnesOf s.last_faces (lowestIdx s.last_faces)).length
       + face_score (s.last_faces.getD (lowestIdx s.last_faces) 0))
    + REROLL_EV * (s.remaining_dice - 1)

/-- `bot.rs`: the Amateur selection before the probabilistic reversal:
the lowest-scoring die, extended by every other face-1 offset when a
leader exists and the EV line does not exceed it. -/
def amateurPicksBase (s : State) : List Nat :=
  match s.leader_to_beat with
  | some leader =>
    if amateurEvLine s ≤ leader then
      lowestIdx s.last_faces :: extraOnesOf s.last_faces (lowestIdx s.last_faces)
    else [lowestIdx s.last_faces]
  | none => [lowestIdx s.last_faces]

/-- `bot.rs`: `amateur_policy`. Every face-3 offset when any exists;
otherwise `amateurPicksBase`, reversed with probability 1/5 (one byte is
drawn from `rng`, and only when `faces.len() > 1` — the `&&`
short-circuit). -/
def amateur_policy (rng : Nat → Nat) (s : State) : List Nat :=
  if threesOf s.last_faces ≠ [] then threesOf s.last_faces
  else if 1 < s.last_faces.length ∧ rng 0 % 256 % 5 = 0 then
    (amateurPicksBase s).reverse
  else amateurPicksBase s

/-- One step of the fold inside `compute_leader_to_beat`: opponents with a
non-empty pick history lower the running best and set the found flag. -/
def leader_step (cur_id : String) (acc : Nat × Bool) (p : Player) : Nat × Bool :=
  if p.id ≠ cur_id ∧ p.picks ≠ [] then
    (if p.total_score < acc.1 then p.total_score else acc.1, true)
  else acc

/-- `lib.rs`: `compute_leader_to_beat` — minimum total among the other
players who have already banked at least one pick. -/
def compute_leader_to_beat (s : State) : Option Nat :=
  if (s.players.foldl (leader_step (s.players.getD s.turn_idx default).id)
      (U32MAX, false)).2 then
    some (s.players.foldl (leader_step (s.players.getD s.turn_idx default).id)
      (U32MAX, false)).1
  else none

/-- `lib.rs`: `timeout_autoplay`. Stores the leader to beat, runs the
Amateur policy (always, whatever the player's `bot_level`) on a generator
derived from `seed XOR (events_seq * 104729)`, applies the decision via
`pick` and re-wraps the pick event as a `TimeoutAutoplay` event. -/
def timeout_autoplay (rngByte : Nat → Nat → Nat) (s : State) : Option (State × Event) :=
  let dseed := Nat.xor s.seed (s.events_seq * 104729 % UINT64)
  let s1 := { s with leader_to_beat := compute_leader_to_beat s }
  let decision := amateur_policy (rngByte dseed) s1
  (pick s1 decision).map (fun q =>
    (q.1, { seq := q.2.seq, ty := EventType.TimeoutAutoplay,
            payload := Payload.timeoutP q.2.payload "amateur_v1",
            state_hash := q.2.state_hash }))

/-- The engine operations a host can apply to a session. -/
inductive Op where
  | rollOp
  | pickOp (indices : List Nat)
  | endTurnOp
  | timeoutOp

/-- Apply one operation; `none` models a panic of the underlying call. -/
def applyOp (rngByte : Nat → Nat → Nat) (s : State) : Op → Option (State × List Event)
  | Op.rollOp => (roll rngByte s).map (fun q => (q.1, [q.2]))
  | Op.pickOp idxs => (pick s idxs).map (fun q => (q.1, [q.2]))
  | Op.endTurnOp => (end_turn_if_done s).map (fun q => (q.1, q.2.toList))
  | Op.timeoutOp => (timeout_autoplay rngByte s).map (fun q => (q.1, [q.2]))

/-- Run a whole session: `init_game` then the operations in order,
accumulating the event log; aborts (`none`) at the first panic. -/
def runOps (rngByte : Nat → Nat → Nat) (shuffle : Nat → List Player → List Player)
    (seed : Nat) (players : List Player) (ops : List Op) : Option (State × List Event) :=
  ops.foldl
    (fun acc op => acc.bind (fun q =>
      (applyOp rngByte q.1 op).map (fun r => (r.1, q.2 ++ r.2))))
    (some (init_game shuffle seed players, []))

/-- A player with the bot-level field blanked; two player lists that agree
under `stripP` are indistinguishable to every engine function except the
host-side bot scheduler (which is outside the core). -/
def stripP (p : Player) : Player := { p with bot_level := none }

/-- A state with every player's bot level blanked. -/
def stripS (s : State) : State := { s with players := s.players.map stripP }

/-- A player with the bot-level field replaced. -/
def setBotLevel (p : Player) (lvl : Option BotLevel) : Player :=
  { p with bot_level := lvl }

/-- The state `s` with the acting player's configured bot level replaced. -/
def withBotLevel (s : State) (lvl : Option BotLevel) : State :=
  { s with players :=
      s.players.set s.turn_idx (setBotLevel (s.players.getD s.turn_idx default) lvl) }

/-- Modelled from the spec: the projected end-of-turn score the claim
ascribes to the Amateur policy, in which the rerolled dice count `d` is
what would remain after taking the tentative lowest die AND every
additional face-1 offset. (The code instead uses `remaining_dice - 1`,
not subtracting the extra face-1 offsets.) -/
def specEvLineC4 (s : State) : Nat :=
  let faces := s.last_faces
  let lowest := lowestIdx faces
  let extra_ones := extraOnesOf faces lowest
  let banked := (s.players.getD s.turn_idx default).picks.sum
  let d := s.remaining_dice - 1 - extra_ones.length
  banked + (face_score (faces.getD lowest 0) + 1 * extra_ones.length) + REROLL_EV * d

/-- States reachable from `init_game` by engine operations. -/
inductive Reach (rngByte : Nat → Nat → Nat) (shuffle : Nat → List Player → List Player)
    (seed : Nat) (players : List Player) : State → Prop where
  | init : Reach rngByte shuffle seed players (init_game shuffle seed players)
  | step {s : State} {op : Op} {s' : State} {evs : List Event} :
      Reach rngByte shuffle seed players s →
      applyOp rngByte s op = some (s', evs) →
      Reach rngByte shuffle seed players s'

/-- A fresh player, used in concrete witnesses. -/
def examplePlayer (i : String) : Player :=
  { id := i, display := i, is_bot := false, bot_level := none,
    wager_cents := 100, total_score := 0, picks := [] }

/-- A mid-turn state with an active roll `[2,1,1]` and a leader to beat of
6, used in concrete witnesses and counterexamples. -/
def exampleState : State :=
  { seed := 0, players := [examplePlayer "a", examplePlayer "b"], turn_idx := 0,
    remaining_dice := 3, last_faces := [2, 1, 1], must_pick_at_least_one := true,
    pot_cents := 200, phase := Phase.Normal, events_seq := 1,
    per_turn_deadline_ms := none, leader_to_beat := some 6 }

/-- An end-of-round state: last seat just banked its final die, both
players ended on total 1, used in concrete witnesses. -/
def exampleEndState : State :=
  { seed := 0,
    players := [{ examplePlayer "a" with total_score := 1, picks := [1] },
                { examplePlayer "b" with total_score := 1, picks := [1] }],
    turn_idx := 1, remaining_dice := 0, last_faces := [],
    must_pick_at_least_one := false, pot_cents := 200, phase := Phase.Normal,
    events_seq := 9, per_turn_deadline_ms := none, leader_to_beat := none }

/-! ### Helper lemmas: sorting and deduplication of pick offsets -/

theorem mem_dedupAdj : ∀ (l : List Nat) (a : Nat), a ∈ dedupAdj l ↔ a ∈ l
  | [], _ => Iff.rfl
  | [_], _ => Iff.rfl
  | x :: y :: l, a => by
    by_cases h : x = y
    · subst h
      rw [show dedupAdj (x :: x :: l) = dedupAdj (x :: l) from if_pos rfl]
      rw [mem_dedupAdj (x :: l) a]
      simp only [List.mem_cons]
      tauto
    · rw [show dedupAdj (x :: y :: l) = x :: dedupAdj (y :: l) from if_neg h]
      simp only [List.mem_cons, mem_dedupAdj (y :: l) a]

theorem dedupAdj_nodup : ∀ (l : List Nat), List.Sorted (· ≤ ·) l → (dedupAdj l).Nodup
  | [], _ => List.nodup_nil
  | [x], _ => List.nodup_singleton x
  | x :: y :: l, h => by
    have hs : List.Sorted (· ≤ ·) (y :: l) := (List.sorted_cons.mp h).2
    by_cases hxy : x = y
    · rw [show dedupAdj (x :: y :: l) = dedupAdj (y :: l) from if_pos hxy]
      exact dedupAdj_nodup (y :: l) hs
    · rw [show dedupAdj (x :: y :: l) = x :: dedupAdj (y :: l) from if_neg hxy]
      refine List.nodup_cons.mpr ⟨?_, dedupAdj_nodup (y :: l) hs⟩
      intro hmem
      rw [mem_dedupAdj] at hmem
      rcases List.mem_cons.mp hmem with h1 | h2
      · exact hxy h1
      · have hx_le : x ≤ y := (List.sorted_cons.mp h).1 y (List.mem_cons_self y l)
        have hy_le : y ≤ x := (List.sorted_cons.mp hs).1 x h2
        exact hxy (Nat.le_antisymm hx_le hy_le)

theorem sortDedup_nodup (l : List Nat) : (sortDedup l).Nodup :=
  dedupAdj_nodup _ (List.sorted_insertionSort (· ≤ ·) l)

theorem mem_sortDedup {a : Nat} {l : List Nat} : a ∈ sortDedup l ↔ a ∈ l := by
  unfold sortDedup
  rw [mem_dedupAdj]
  exact (List.perm_insertionSort (· ≤ ·) l).mem_iff

theorem sortDedup_ne_nil {l : List Nat} (h : l ≠ []) : sortDedup l ≠ [] := by
  rcases List.exists_mem_of_ne_nil l h with ⟨a, ha⟩
  intro hnil
  have hmem : a ∈ sortDedup l := mem_sortDedup.mpr ha
  rw [hnil] at hmem
  exact List.not_mem_nil a hmem

/-! ### Characterization of `pick` -/

theorem pick_some_of (s : State) (indices : List Nat)
    (h1 : s.last_faces ≠ []) (h2 : indices ≠ [])
    (h3 : ∀ i ∈ sortDedup indices, i < s.last_faces.length)
    (h4 : s.turn_idx < s.players.length) :
    pick s indices
      = some (pickState s (sortDedup indices), pickEvent s (sortDedup indices)) := by
  unfold pick
  rw [if_neg h1, if_neg h2, if_pos, if_pos h4]
  exact List.all_eq_true.mpr fun i hi => decide_eq_true (h3 i hi)

theorem pick_some_dest {s : State} {indices : List Nat} {s' : State} {ev : Event}
    (h : pick s indices = some (s', ev)) :
    s.last_faces ≠ [] ∧ indices ≠ [] ∧
    (∀ i ∈ sortDedup indices, i < s.last_faces.length) ∧
    s.turn_idx < s.players.length ∧
    s' = pickState s (sortDedup indices) ∧ ev = pickEvent s (sortDedup indices) := by
  unfold pick at h
  split at h
  · exact absurd h (by simp)
  next h1 =>
  split at h
  · exact absurd h (by simp)
  next h2 =>
  split at h
  next h3 =>
    split at h
    next h4 =>
      obtain ⟨hs, he⟩ := Prod.mk.injEq .. ▸ Option.some.injEq .. ▸ h
      exact ⟨h1, h2,
        fun i hi => of_decide_eq_true (List.all_eq_true.mp h3 i hi),
        h4, hs.symm, he.symm⟩
    next h4 => exact absurd h (by simp)
  next h3 => exact absurd h (by simp)

/-! ### C1: determinism of replay -/

/-- C1: two runs with the same seed, the same initial player list and the
same operation sequence produce identical states and identical event logs
after every step — hence the same faces in every Roll event, the same
autoplay pick indices, and the same payloads, sequence numbers and state
hashes. Randomness enters only through the deterministic byte stream
`rngByte` (the embedding of `StdRng`, whose output is a function of its
derived seed) and the deterministic seeded `shuffle`. -/
theorem c1_determinism (rngByte : Nat → Nat → Nat)
    (shuffle : Nat → List Player → List Player)
    (seed1 seed2 : Nat) (players1 players2 : List Player) (ops1 ops2 : List Op)
    (hs : seed1 = seed2) (hp : players1 = players2) (ho : ops1 = ops2) :
    ∀ n : Nat, runOps rngByte shuffle seed1 players1 (ops1.take n)
      = runOps rngByte shuffle seed2 players2 (ops2.take n) := by
  subst hs; subst hp; subst ho
  intro n
  rfl

/-- Witness for C1 at a concrete seed, player list and operation list. -/
theorem c1_determinism_witness :
    runOps (fun _ _ => 0) (fun _ l => l) 42 [examplePlayer "a"] ([Op.rollOp].take 1)
      = runOps (fun _ _ => 0) (fun _ l => l) 42 [examplePlayer "a"] ([Op.rollOp].take 1) :=
  c1_determinism (fun _ _ => 0) (fun _ l => l) 42 42 [examplePlayer "a"]
    [examplePlayer "a"] [Op.rollOp] [Op.rollOp] rfl rfl rfl 1

/-! ### C3: pick payload deduplication and atomicity of rejection -/

/-- C3: the `Pick` event's payload never contains duplicate offsets even
when the caller passed duplicates, and a selection containing an
out-of-range offset makes `pick` fail with no successor state (`none`
models the assertion failure, which in the source fires before any state
mutation), so a rejected pick leaves every field of `State` unchanged. -/
theorem c3_pick_dedup_and_atomic (s : State) (indices : List Nat) :
    (∀ picked vals,
        (pick s indices).map (fun q => q.2.payload) = some (Payload.pickP picked vals) →
        picked.Nodup)
    ∧ (∀ i, i ∈ indices → s.last_faces.length ≤ i → pick s indices = none) := by
  constructor
  · intro picked vals h
    cases hp : pick s indices with
    | none => rw [hp] at h; exact absurd h (by simp)
    | some q =>
      obtain ⟨s', ev⟩ := q
      obtain ⟨-, -, -, -, -, hev⟩ := pick_some_dest hp
      rw [hp] at h
      have hpl : Payload.pickP (sortDedup indices)
          (pickVals s.last_faces (sortDedup indices)) = Payload.pickP picked vals := by
        rw [hev] at h
        simpa [pickEvent] using h
      injection hpl with h5 h6
      rw [← h5]
      exact sortDedup_nodup indices
  · intro i hi hle
    cases hp : pick s indices with
    | none => rfl
    | some q =>
      obtain ⟨s', ev⟩ := q
      obtain ⟨-, -, h3, -, -, -⟩ := pick_some_dest hp
      exact absurd (h3 i (mem_sortDedup.mpr hi)) (Nat.not_lt.mpr hle)

/-- Witness for C3: duplicate offsets `[0,0]` yield the nodup payload
`[0]`, and the out-of-range offset 5 is rejected on `exampleState`. -/
theorem c3_witness :
    ([0] : List Nat).Nodup ∧ pick exampleState [5] = none :=
  ⟨(c3_pick_dedup_and_atomic exampleState [0, 0]).1 [0] [2] (by rfl),
   (c3_pick_dedup_and_atomic exampleState [5]).2 5 (by simp) (by decide)⟩

/-! ### C10: frame of a successful pick -/

/-- C10: a successful `pick` changes only the acting player and the fields
`last_faces`, `remaining_dice`, `must_pick_at_least_one`, `events_seq`;
the seed, pot, phase, turn index, deadline, leader-to-beat, the player
count and every player other than `players[turn_idx]` are left exactly as
they were. -/
theorem c10_pick_frame (s : State) (indices : List Nat) (s' : State) (ev : Event)
    (h : pick s indices = some (s', ev)) :
    s'.seed = s.seed ∧ s'.pot_cents = s.pot_cents ∧ s'.phase = s.phase ∧
    s'.turn_idx = s.turn_idx ∧ s'.per_turn_deadline_ms = s.per_turn_deadline_ms ∧
    s'.leader_to_beat = s.leader_to_beat ∧ s'.players.length = s.players.length ∧
    ∀ j, j ≠ s.turn_idx → s'.players[j]? = s.players[j]? := by
  obtain ⟨-, -, -, -, hs, -⟩ := pick_some_dest h
  subst hs
  refine ⟨rfl, rfl, rfl, rfl, rfl, rfl, by simp [pickState], ?_⟩
  intro j hj
  simp only [pickState]
  exact List.getElem?_set_ne fun e => hj e.symm

/-- Witness for C10: picking offset 0 on `exampleState` leaves the second
seat's player untouched. -/
theorem c10_witness :
    (pickState exampleState (sortDedup [0])).players[1]? = exampleState.players[1]? :=
  (c10_pick_frame exampleState [0] (pickState exampleState (sortDedup [0]))
      (pickEvent exampleState (sortDedup [0]))
      (pick_some_of exampleState [0] (by decide) (by decide) (by decide) (by decide))).2.2.2.2.2.2.2
    1 (by decide)

/-! ### C7: shape of a roll (corrected: modulo bias, not exactly uniform) -/

/-- C7 counterexample: the claim says each face is drawn uniformly from
`{1..6}`, but the generator maps a uniform byte through `(b % 6) + 1`,
and 256 is not a multiple of 6: 43 of the 256 byte values yield face 1
while only 42 yield face 6, so the face distribution is not uniform. -/
theorem c7_counterexample :
    ((List.range 256).filter (fun b => genFace b = 1)).length = 43 ∧
    ((List.range 256).filter (fun b => genFace b = 6)).length = 42 := by
  constructor <;> rfl

/-- C7 (amended): for every state in phase `Normal` with dice remaining,
`roll` generates exactly `remaining_dice` faces, each in `{1..6}` — drawn
as `(byte mod 6) + 1`, approximately uniform but with modulo bias (see
the counterexample) — stores them in `last_faces`, sets
`must_pick_at_least_one` to true and increments `events_seq` by exactly
1. -/
theorem c7_roll_shape (rngByte : Nat → Nat → Nat) (s : State)
    (h1 : s.phase = Phase.Normal) (h2 : 0 < s.remaining_dice) :
    ∃ s' ev, roll rngByte s = some (s', ev) ∧
      s'.last_faces.length = s.remaining_dice ∧
      (∀ f ∈ s'.last_faces, 1 ≤ f ∧ f ≤ 6) ∧
      s'.last_faces = rollFaces rngByte s ∧
      ev.payload = Payload.rollP s'.last_faces ∧
      s'.must_pick_at_least_one = true ∧
      s'.events_seq = s.events_seq + 1 := by
  refine ⟨rollState rngByte s, rollEvent rngByte s, ?_, ?_, ?_, rfl, rfl, rfl, rfl⟩
  · unfold roll
    rw [if_pos h1, if_neg (Nat.pos_iff_ne_zero.mp h2)]
  · simp [rollState, rollFaces]
  · intro f hf
    simp only [rollState, rollFaces, List.mem_map, List.mem_range] at hf
    obtain ⟨i, -, hi⟩ := hf
    rw [← hi]
    unfold genFace
    have hlt : rngByte (Nat.xor s.seed (s.events_seq * 7919 % UINT64)) i % 256 % 6 < 6 :=
      Nat.mod_lt _ (by decide)
    omega

/-- Witness for C7 on `exampleState` with a concrete byte stream. -/
theorem c7_witness :
    ∃ s' ev, roll (fun _ i => i) exampleState = some (s', ev) ∧
      s'.last_faces.length = exampleState.remaining_dice ∧
      (∀ f ∈ s'.last_faces, 1 ≤ f ∧ f ≤ 6) ∧
      s'.last_faces = rollFaces (fun _ i => i) exampleState ∧
      ev.payload = Payload.rollP s'.last_faces ∧
      s'.must_pick_at_least_one = true ∧
      s'.events_seq = exampleState.events_seq + 1 :=
  c7_roll_shape (fun _ i => i) exampleState (by rfl) (by decide)

/-! ### C8: end_turn_if_done behavior -/

/-- C8: `end_turn_if_done` returns no event and leaves the state unchanged
whenever `remaining_dice > 0`; when `remaining_dice = 0` it returns
exactly one `EndTurn` event carrying the finishing player's total,
advances `turn_idx` circularly to the next player and resets
`remaining_dice` to 7 for the new turn. -/
theorem c8_end_turn (s : State) :
    (0 < s.remaining_dice → end_turn_if_done s = some (s, none))
    ∧ (s.remaining_dice = 0 → s.turn_idx < s.players.length →
        ∃ s' ev, end_turn_if_done s = some (s', some ev) ∧
          ev.ty = EventType.EndTurn ∧
          ev.payload = Payload.endTurnP s.turn_idx
            (s.players.getD s.turn_idx default).total_score ∧
          s'.turn_idx = (s.turn_idx + 1) % s.players.length ∧
          s'.remaining_dice = 7 ∧ s'.last_faces = [] ∧
          s'.must_pick_at_least_one = true ∧
          s'.events_seq = s.events_seq + 1) := by
  constructor
  · intro h
    unfold end_turn_if_done
    rw [if_neg (Nat.pos_iff_ne_zero.mp h)]
  · intro h0 hidx
    refine ⟨endTurnState s, endTurnEvent s, ?_, rfl, rfl, ?_, ?_, ?_, ?_, ?_⟩
    · unfold end_turn_if_done
      rw [if_pos h0, if_pos hidx]
    all_goals (unfold endTurnState; split <;> rfl)

/-- Witness for C8: the no-op branch on `exampleState` (3 dice left) and
the firing branch on `exampleEndState` (0 dice left, last seat). -/
theorem c8_witness :
    end_turn_if_done exampleState = some (exampleState, none)
    ∧ ∃ s' ev, end_turn_if_done exampleEndState = some (s', some ev) ∧
        ev.ty = EventType.EndTurn ∧
        ev.payload = Payload.endTurnP exampleEndState.turn_idx
          (exampleEndState.players.getD exampleEndState.turn_idx default).total_score ∧
        s'.turn_idx = (exampleEndState.turn_idx + 1) % exampleEndState.players.length ∧
        s'.remaining_dice = 7 ∧ s'.last_faces = [] ∧
        s'.must_pick_at_least_one = true ∧
        s'.events_seq = exampleEndState.events_seq + 1 :=
  ⟨(c8_end_turn exampleState).1 (by decide),
   (c8_end_turn exampleEndState).2 rfl (by decide)⟩

/-! ### Helper lemmas about the Amateur policy's index sets -/

theorem getD_mem_of_lt {l : List Nat} {i : Nat} (h : i < l.length) : l.getD i 0 ∈ l := by
  rw [List.getD_eq_getElem l 0 h]
  exact List.getElem_mem h

theorem threesOf_eq_nil {faces : List Nat} (h : ∀ f ∈ faces, f ≠ 3) :
    threesOf faces = [] := by
  unfold threesOf
  rw [List.filter_eq_nil_iff]
  intro i hi
  rw [List.mem_range] at hi
  simp only [decide_eq_true_eq]
  exact h _ (getD_mem_of_lt hi)

theorem mem_threesOf {faces : List Nat} {i : Nat} :
    i ∈ threesOf faces ↔ i < faces.length ∧ faces.getD i 0 = 3 := by
  unfold threesOf
  simp [List.mem_filter, List.mem_range]

theorem mem_extraOnesOf {faces : List Nat} {lowest i : Nat} :
    i ∈ extraOnesOf faces lowest ↔
      i < faces.length ∧ i ≠ lowest ∧ faces.getD i 0 = 1 := by
  unfold extraOnesOf
  simp [List.mem_filter, List.mem_range, and_assoc]

theorem lowestIdx_lt {faces : List Nat} (h : faces ≠ []) :
    lowestIdx faces < faces.length := by
  have h0 : (0 : Nat) < faces.length := List.length_pos.mpr h
  unfold lowestIdx
  refine @List.foldlRecOn Nat Nat (fun x => x < faces.length)
      (List.range' 1 (faces.length - 1)) _ 0 h0 ?_
  intro b hb i hi
  split
  · have hm := List.mem_range'_1.mp hi
    omega
  · exact hb

theorem amateurPicksBase_of_leader {s : State} {leader : Nat}
    (hld : s.leader_to_beat = some leader) :
    amateurPicksBase s
      = if amateurEvLine s ≤ leader then
          lowestIdx s.last_faces :: extraOnesOf s.last_faces (lowestIdx s.last_faces)
        else [lowestIdx s.last_faces] := by
  unfold amateurPicksBase
  rw [hld]

/-! ### C4: the Amateur EV line (corrected: d does not subtract the extra
face-1 offsets) -/

/-- C4 counterexample: on `exampleState` (faces `[2,1,1]`, no 3s, leader
6, nothing banked) the claim's EV line — which subtracts the extra face-1
offsets from the rerolled-dice count `d` — is `5 ≤ 6`, so the claim says
the extra face-1 offset 2 is selected; the code's EV line is
`8 > 6` and the policy returns `[1]` only, not selecting offset 2. -/
theorem c4_counterexample :
    specEvLineC4 exampleState ≤ 6 ∧
    exampleState.leader_to_beat = some 6 ∧
    (∀ f ∈ exampleState.last_faces, f ≠ 3) ∧
    2 ∈ extraOnesOf exampleState.last_faces (lowestIdx exampleState.last_faces) ∧
    amateurEvLine exampleState = 8 ∧
    amateur_policy (fun _ => 1) exampleState = [1] ∧
    2 ∉ amateur_policy (fun _ => 1) exampleState := by
  refine ⟨by decide, rfl, by decide, by decide, by decide, by rfl, by decide⟩

/-- C4 (amended): with a leader to beat and a roll containing no face 3,
the Amateur policy computes
`ev_line = banked_total + (face_score of the selected lowest die
+ 1 * count of other face-1 offsets) + round(REROLL_EV * d)` where
`d = remaining_dice - 1` is the dice count remaining after the tentative
lowest-die selection only (the code does not additionally subtract the
extra face-1 offsets, contrary to the claim), and it selects every
remaining face-1 offset in addition to the lowest die exactly when
`ev_line ≤ leader`. -/
theorem c4_amateur_ev_line (rng : Nat → Nat) (s : State) (leader : Nat)
    (h3 : ∀ f ∈ s.last_faces, f ≠ 3)
    (hld : s.leader_to_beat = some leader) :
    ∀ j, j ∈ amateur_policy rng s ↔
      (j = lowestIdx s.last_faces ∨
        (amateurEvLine s ≤ leader
          ∧ j < s.last_faces.length ∧ j ≠ lowestIdx s.last_faces
          ∧ s.last_faces.getD j 0 = 1)) := by
  intro j
  have hth : ¬ (threesOf s.last_faces ≠ []) := fun hh => hh (threesOf_eq_nil h3)
  unfold amateur_policy
  rw [if_neg hth, amateurPicksBase_of_leader hld]
  by_cases hev : amateurEvLine s ≤ leader
  · rw [if_pos hev]
    by_cases hrev : 1 < s.last_faces.length ∧ rng 0 % 256 % 5 = 0
    · rw [if_pos hrev]
      simp only [List.mem_reverse, List.mem_cons, mem_extraOnesOf]
      tauto
    · rw [if_neg hrev]
      simp only [List.mem_cons, mem_extraOnesOf]
      tauto
  · rw [if_neg hev]
    by_cases hrev : 1 < s.last_faces.length ∧ rng 0 % 256 % 5 = 0
    · rw [if_pos hrev]
      simp only [List.mem_reverse, List.mem_singleton]
      tauto
    · rw [if_neg hrev]
      simp only [List.mem_singleton]
      tauto

/-- Witness for C4 (amended) on `exampleState` at offset 2: the code's EV
line is 8, which exceeds the leader 6, so offset 2 is not selected. -/
theorem c4_witness :
    2 ∈ amateur_policy (fun _ => 1) exampleState ↔
      (2 = lowestIdx exampleState.last_faces ∨
        (amateurEvLine exampleState ≤ 6
          ∧ 2 < exampleState.last_faces.length
          ∧ 2 ≠ lowestIdx exampleState.last_faces
          ∧ exampleState.last_faces.getD 2 0 = 1)) :=
  c4_amateur_ev_line (fun _ => 1) exampleState 6 (by decide) rfl 2

/-! ### Helper lemmas about the winner scan of `end_turn_if_done` -/

theorem minFold_cons (p : Player) (rest : List Player) (low : Nat) :
    minFold (p :: rest) low = minFold rest (min low p.total_score) := rfl

theorem lowsAux_snd : ∀ (ps : List Player) (i : Nat) (lows : List Nat) (low : Nat),
    (lowsAux i ps lows low).2 = minFold ps low
  | [], _, _, _ => rfl
  | p :: rest, i, lows, low => by
    rw [minFold_cons]
    unfold lowsAux
    by_cases h1 : p.total_score < low
    · rw [if_pos h1, lowsAux_snd rest (i + 1) [i] p.total_score,
          min_eq_right (Nat.le_of_lt h1)]
    · rw [if_neg h1]
      by_cases h2 : p.total_score = low
      · rw [if_pos h2, lowsAux_snd rest (i + 1) (lows ++ [i]) low,
            min_eq_left (Nat.le_of_eq h2.symm)]
      · rw [if_neg h2, lowsAux_snd rest (i + 1) lows low,
            min_eq_left (by omega)]

theorem minFold_le_init : ∀ (ps : List Player) (low : Nat), minFold ps low ≤ low
  | [], low => Nat.le_refl low
  | p :: rest, low => by
    rw [minFold_cons]
    exact Nat.le_trans (minFold_le_init rest _) (min_le_left _ _)

theorem minFold_le_mem : ∀ (ps : List Player) (low : Nat) (p : Player), p ∈ ps →
    minFold ps low ≤ p.total_score
  | [], _, _, h => absurd h (List.not_mem_nil _)
  | q :: rest, low, p, h => by
    rw [minFold_cons]
    rcases List.mem_cons.mp h with h1 | h2
    · subst h1
      exact Nat.le_trans (minFold_le_init rest _) (min_le_right _ _)
    · exact minFold_le_mem rest _ p h2

theorem minFold_eq_init_or_mem : ∀ (ps : List Player) (low : Nat),
    minFold ps low = low ∨ ∃ p ∈ ps, minFold ps low = p.total_score
  | [], _ => Or.inl rfl
  | q :: rest, low => by
    rw [minFold_cons]
    rcases minFold_eq_init_or_mem rest (min low q.total_score) with h | ⟨p, hp, he⟩
    · rcases Nat.le_total low q.total_score with hl | hl
      · exact Or.inl (by rw [h, min_eq_left hl])
      · exact Or.inr ⟨q, List.mem_cons_self q rest, by rw [h, min_eq_right hl]⟩
    · exact Or.inr ⟨p, List.mem_cons_of_mem q hp, he⟩

theorem lowsAux_fst_map (g : Nat → Player) :
    ∀ (ps : List Player) (i : Nat) (lows : List Nat) (low : Nat),
      (∀ k, k < ps.length → g (i + k) = ps.getD k default) →
      ((lowsAux i ps lows low).1).map g
        = (if minFold ps low < low then [] else lows.map g)
            ++ ps.filter (fun p => p.total_score = minFold ps low)
  | [], i, lows, low, _ => by
    simp [lowsAux, minFold, Nat.lt_irrefl]
  | p :: rest, i, lows, low, hg => by
    have hg0 : g i = p := by
      have h := hg 0 (by simp)
      simpa using h
    have hg' : ∀ k, k < rest.length → g ((i + 1) + k) = rest.getD k default := by
      intro k hk
      have h := hg (k + 1) (by simpa using Nat.succ_lt_succ hk)
      rw [show i + (k + 1) = (i + 1) + k from by omega] at h
      simpa using h
    unfold lowsAux
    by_cases h1 : p.total_score < low
    · rw [if_pos h1, lowsAux_fst_map g rest (i + 1) [i] p.total_score hg']
      have hmf : minFold (p :: rest) low = minFold rest p.total_score := by
        rw [minFold_cons, min_eq_right (Nat.le_of_lt h1)]
      simp only [hmf]
      rw [if_pos (Nat.lt_of_le_of_lt (minFold_le_init rest _) h1)]
      by_cases h2 : minFold rest p.total_score < p.total_score
      · rw [if_pos h2, List.filter_cons_of_neg (by simp; omega)]
      · have heq : minFold rest p.total_score = p.total_score :=
          Nat.le_antisymm (minFold_le_init rest _) (Nat.not_lt.mp h2)
        rw [if_neg h2, List.filter_cons_of_pos (by simp [heq])]
        simp [hg0]
    · rw [if_neg h1]
      by_cases h2 : p.total_score = low
      · rw [if_pos h2, lowsAux_fst_map g rest (i + 1) (lows ++ [i]) low hg']
        have hmf : minFold (p :: rest) low = minFold rest low := by
          rw [minFold_cons, h2, min_self]
        simp only [hmf]
        by_cases h3 : minFold rest low < low
        · rw [if_pos h3, if_pos h3, List.filter_cons_of_neg (by simp; omega)]
        · have heq : minFold rest low = low :=
            Nat.le_antisymm (minFold_le_init rest _) (Nat.not_lt.mp h3)
          rw [if_neg h3, if_neg h3, List.filter_cons_of_pos (by simp [heq, h2])]
          simp [hg0, List.append_assoc]
      · have h3 : low < p.total_score := by omega
        rw [if_neg h2, lowsAux_fst_map g rest (i + 1) lows low hg']
        have hmf : minFold (p :: rest) low = minFold rest low := by
          rw [minFold_cons, min_eq_left (Nat.le_of_lt h3)]
        simp only [hmf]
        rw [List.filter_cons_of_neg (by
          simp
          have := minFold_le_init rest low
          omega)]

/-- The winner scan's seats, mapped to the players sitting there, are
exactly the players attaining the minimal total, in seat order. -/
theorem lows_map_eq_winners (ps : List Player) :
    ((lowsAux 0 ps [] U32MAX).1).map (fun j => ps.getD j default)
      = ps.filter (fun p => p.total_score = minFold ps U32MAX) := by
  have h := lowsAux_fst_map (fun j => ps.getD j default) ps 0 [] U32MAX
    (by intro k hk; simp)
  simp only [lowsAux_snd] at h ⊢
  rw [h]
  simp

/-! ### C2: round evaluation after the last seat -/

/-- C2: when `end_turn_if_done` fires with `remaining_dice = 0` and the
finishing player in the last seat, the engine evaluates the round:
`minFold players u32::MAX` is the true minimum of the totals (it bounds
every player and is attained); if exactly one player attains it the phase
becomes `Finished`, and if two or more share it the phase becomes
`SuddenDeath` carrying exactly the ids of those tied players — obtained by
a filter over the seat-ordered player list, hence in ascending seat
order. The `u32` type of `total_score` is reflected by the hypothesis that
every total is at most `u32::MAX` (the scan's sentinel). -/
theorem c2_round_evaluation (s : State)
    (h0 : s.remaining_dice = 0)
    (hne : s.players ≠ [])
    (hlast : s.turn_idx = s.players.length - 1)
    (hbound : ∀ p ∈ s.players, p.total_score ≤ U32MAX) :
    ∃ s' ev, end_turn_if_done s = some (s', some ev) ∧
      (∀ p ∈ s.players, minFold s.players U32MAX ≤ p.total_score) ∧
      (∃ p ∈ s.players, p.total_score = minFold s.players U32MAX) ∧
      ((s.players.filter
          (fun p => p.total_score = minFold s.players U32MAX)).length = 1 →
        s'.phase = Phase.Finished) ∧
      (2 ≤ (s.players.filter
          (fun p => p.total_score = minFold s.players U32MAX)).length →
        s'.phase = Phase.SuddenDeath
          ((s.players.filter
              (fun p => p.total_score = minFold s.players U32MAX)).map Player.id)) := by
  have hpos : 0 < s.players.length := List.length_pos.mpr hne
  have hidx : s.turn_idx < s.players.length := by omega
  refine ⟨endTurnState s, endTurnEvent s, ?_, ?_, ?_, ?_, ?_⟩
  · unfold end_turn_if_done
    rw [if_pos h0, if_pos hidx]
  · intro p hp
    exact minFold_le_mem s.players U32MAX p hp
  · rcases minFold_eq_init_or_mem s.players U32MAX with h | ⟨p, hp, he⟩
    · rcases List.exists_mem_of_ne_nil s.players hne with ⟨p, hp⟩
      refine ⟨p, hp, Nat.le_antisymm ?_ ?_⟩
      · rw [h]
        exact hbound p hp
      · exact minFold_le_mem s.players U32MAX p hp
    · exact ⟨p, hp, he.symm⟩
  · intro hone
    unfold endTurnState
    rw [if_pos hlast]
    show roundPhase s.players = Phase.Finished
    unfold roundPhase
    have hlen : (lowsAux 0 s.players [] U32MAX).1.length
        = (s.players.filter
            (fun p => p.total_score = minFold s.players U32MAX)).length := by
      rw [← lows_map_eq_winners s.players, List.length_map]
    rw [if_neg (by omega)]
  · intro htwo
    unfold endTurnState
    rw [if_pos hlast]
    show roundPhase s.players
      = Phase.SuddenDeath ((s.players.filter
          (fun p => p.total_score = minFold s.players U32MAX)).map Player.id)
    unfold roundPhase
    have hlen : (lowsAux 0 s.players [] U32MAX).1.length
        = (s.players.filter
            (fun p => p.total_score = minFold s.players U32MAX)).length := by
      rw [← lows_map_eq_winners s.players, List.length_map]
    rw [if_pos (by omega)]
    have hids : ((lowsAux 0 s.players [] U32MAX).1).map
          (fun i => (s.players.getD i default).id)
        = (s.players.filter
            (fun p => p.total_score = minFold s.players U32MAX)).map Player.id := by
      rw [← lows_map_eq_winners s.players, List.map_map]
      rfl
    rw [hids]

/-- Witness for C2 on `exampleEndState`: both players end on total 1, so
the phase becomes `SuddenDeath ["a", "b"]` in seat order. -/
theorem c2_witness :
    ∃ s' ev, end_turn_if_done exampleEndState = some (s', some ev) ∧
      (∀ p ∈ exampleEndState.players,
        minFold exampleEndState.players U32MAX ≤ p.total_score) ∧
      (∃ p ∈ exampleEndState.players,
        p.total_score = minFold exampleEndState.players U32MAX) ∧
      ((exampleEndState.players.filter
          (fun p => p.total_score = minFold exampleEndState.players U32MAX)).length = 1 →
        s'.phase = Phase.Finished) ∧
      (2 ≤ (exampleEndState.players.filter
          (fun p => p.total_score = minFold exampleEndState.players U32MAX)).length →
        s'.phase = Phase.SuddenDeath
          ((exampleEndState.players.filter
              (fun p => p.total_score
                = minFold exampleEndState.players U32MAX)).map Player.id)) :=
  c2_round_evaluation exampleEndState rfl (by decide) rfl (by decide)

/-! ### Characterizations of the remaining operations, and the step
invariants used for the reachability claims -/

theorem roll_some_dest {rngByte : Nat → Nat → Nat} {s : State} {q : State × Event}
    (h : roll rngByte s = some q) :
    s.phase = Phase.Normal ∧ s.remaining_dice ≠ 0
      ∧ q = (rollState rngByte s, rollEvent rngByte s) := by
  unfold roll at h
  split at h
  next h1 =>
    split at h
    · exact absurd h (by simp)
    next h2 => exact ⟨h1, h2, (Option.some.inj h).symm⟩
  next h1 => exact absurd h (by simp)

theorem end_turn_some_dest {s : State} {r : State × Option Event}
    (h : end_turn_if_done s = some r) :
    r.1 = s ∨ r.1 = endTurnState s := by
  unfold end_turn_if_done at h
  split at h
  · split at h
    · cases Option.some.inj h
      exact Or.inr rfl
    · exact absurd h (by simp)
  · cases Option.some.inj h
    exact Or.inl rfl

theorem endTurnState_players (s : State) : (endTurnState s).players = s.players := by
  unfold endTurnState
  split <;> rfl

theorem endTurnState_remaining (s : State) : (endTurnState s).remaining_dice = 7 := by
  unfold endTurnState
  split <;> rfl

theorem endTurnState_faces (s : State) : (endTurnState s).last_faces = [] := by
  unfold endTurnState
  split <;> rfl

theorem timeout_some_dest {rngByte : Nat → Nat → Nat} {s : State} {q : State × Event}
    (h : timeout_autoplay rngByte s = some q) :
    ∃ ev0, pick { s with leader_to_beat := compute_leader_to_beat s }
        (amateur_policy (rngByte (Nat.xor s.seed (s.events_seq * 104729 % UINT64)))
          { s with leader_to_beat := compute_leader_to_beat s })
      = some (q.1, ev0) := by
  unfold timeout_autoplay at h
  rw [Option.map_eq_some'] at h
  obtain ⟨a, ha, hpair⟩ := h
  obtain ⟨s1', ev1⟩ := a
  cases hpair
  exact ⟨ev1, ha⟩

theorem applyOp_preserves (rngByte : Nat → Nat → Nat) {s s' : State} {op : Op}
    {evs : List Event}
    (hInv : s.phase ≠ Phase.Normal → 0 < s.remaining_dice ∧ s.last_faces = [])
    (h : applyOp rngByte s op = some (s', evs)) :
    (s'.phase ≠ Phase.Normal → 0 < s'.remaining_dice ∧ s'.last_faces = [])
    ∧ (s.phase = Phase.Normal ∨ s'.phase = s.phase) := by
  cases op with
  | rollOp =>
    simp only [applyOp, Option.map_eq_some'] at h
    obtain ⟨q, hq, hpair⟩ := h
    obtain ⟨hph, -, hq2⟩ := roll_some_dest hq
    have hs' : s' = rollState rngByte s := by
      rw [hq2] at hpair
      exact (congrArg Prod.fst hpair).symm
    constructor
    · intro hne
      exact absurd (by rw [hs']; exact hph) hne
    · exact Or.inl hph
  | pickOp idxs =>
    simp only [applyOp, Option.map_eq_some'] at h
    obtain ⟨q, hq, hpair⟩ := h
    obtain ⟨s0, ev0⟩ := q
    obtain ⟨hfaces, -, -, -, hs0, -⟩ := pick_some_dest hq
    cases hpair
    subst hs0
    constructor
    · intro hne
      have hph : s.phase ≠ Phase.Normal := hne
      exact absurd (hInv hph).2 hfaces
    · exact Or.inr rfl
  | endTurnOp =>
    simp only [applyOp, Option.map_eq_some'] at h
    obtain ⟨q, hq, hpair⟩ := h
    have hs' : s' = q.1 := (congrArg Prod.fst hpair).symm
    rcases end_turn_some_dest hq with h1 | h1
    · rw [hs', h1]
      exact ⟨hInv, Or.inr rfl⟩
    · by_cases hph : s.phase = Phase.Normal
      · refine ⟨?_, Or.inl hph⟩
        intro _
        rw [hs', h1, endTurnState_remaining, endTurnState_faces]
        exact ⟨by omega, rfl⟩
      · -- phase not Normal: remaining_dice > 0, so end_turn_if_done is a no-op
        have hrem := (hInv hph).1
        unfold end_turn_if_done at hq
        rw [if_neg (by omega)] at hq
        cases Option.some.inj hq
        rw [hs']
        exact ⟨hInv, Or.inr rfl⟩
  | timeoutOp =>
    simp only [applyOp, Option.map_eq_some'] at h
    obtain ⟨q, hq, hpair⟩ := h
    have hs' : s' = q.1 := (congrArg Prod.fst hpair).symm
    obtain ⟨ev0, hpk⟩ := timeout_some_dest hq
    obtain ⟨hfaces, -, -, -, hq1, -⟩ := pick_some_dest hpk
    by_cases hph : s.phase = Phase.Normal
    · refine ⟨?_, Or.inl hph⟩
      intro hne
      rw [hs', hq1] at hne
      exact absurd hph (by simpa [pickState] using hne)
    · exact absurd (hInv hph).2 hfaces

theorem reach_inv {rngByte : Nat → Nat → Nat}
    {shuffle : Nat → List Player → List Player} {seed : Nat}
    {players : List Player} {s : State}
    (h : Reach rngByte shuffle seed players s) :
    s.phase ≠ Phase.Normal → 0 < s.remaining_dice ∧ s.last_faces = [] := by
  induction h with
  | init => intro hph; exact absurd rfl hph
  | step _ hstep ih => exact (applyOp_preserves _ ih hstep).1

/-! ### C9: phases never move backward -/

/-- C9: along every operation sequence from `init_game`, a step either
starts in phase `Normal` (from which only `Normal`, `SuddenDeath` or
`Finished` can result) or leaves the phase exactly as it was; in
particular no reachable `SuddenDeath` or `Finished` state ever returns to
`Normal` or moves to the other terminal-adjacent phase. -/
theorem c9_phase_monotone (rngByte : Nat → Nat → Nat)
    (shuffle : Nat → List Player → List Player) (seed : Nat)
    (players : List Player) (s s' : State) (op : Op) (evs : List Event)
    (hreach : Reach rngByte shuffle seed players s)
    (hstep : applyOp rngByte s op = some (s', evs)) :
    s.phase = Phase.Normal ∨ s'.phase = s.phase :=
  (applyOp_preserves rngByte (reach_inv hreach) hstep).2

/-- Witness for C9: one `end_turn_if_done` step out of a freshly
initialized game. -/
theorem c9_witness :
    (init_game (fun _ l => l) 0 [examplePlayer "a"]).phase = Phase.Normal
    ∨ (init_game (fun _ l => l) 0 [examplePlayer "a"]).phase
        = (init_game (fun _ l => l) 0 [examplePlayer "a"]).phase :=
  c9_phase_monotone (fun _ _ => 0) (fun _ l => l) 0 [examplePlayer "a"]
    (init_game (fun _ l => l) 0 [examplePlayer "a"])
    (init_game (fun _ l => l) 0 [examplePlayer "a"])
    Op.endTurnOp [] Reach.init (by rfl)

/-! ### C5: total_score always equals the sum of scored pick values -/

theorem pickedPlayer_inv (s : State) (idxs : List Nat) :
    (pickedPlayer s idxs).total_score = sum_score (pickedPlayer s idxs).picks := rfl

theorem applyOp_players_inv (rngByte : Nat → Nat → Nat) {s s' : State} {op : Op}
    {evs : List Event}
    (h : applyOp rngByte s op = some (s', evs))
    (hp : ∀ p ∈ s.players, p.total_score = sum_score p.picks) :
    ∀ p ∈ s'.players, p.total_score = sum_score p.picks := by
  cases op with
  | rollOp =>
    simp only [applyOp, Option.map_eq_some'] at h
    obtain ⟨q, hq, hpair⟩ := h
    obtain ⟨-, -, hq2⟩ := roll_some_dest hq
    have hs' : s' = rollState rngByte s := by
      rw [hq2] at hpair
      exact (congrArg Prod.fst hpair).symm
    rw [hs']
    exact hp
  | pickOp idxs =>
    simp only [applyOp, Option.map_eq_some'] at h
    obtain ⟨q, hq, hpair⟩ := h
    obtain ⟨s0, ev0⟩ := q
    obtain ⟨-, -, -, -, hs0, -⟩ := pick_some_dest hq
    cases hpair
    subst hs0
    intro p hmem
    rcases List.mem_or_eq_of_mem_set hmem with h1 | h1
    · exact hp p h1
    · rw [h1]
      exact pickedPlayer_inv s (sortDedup idxs)
  | endTurnOp =>
    simp only [applyOp, Option.map_eq_some'] at h
    obtain ⟨q, hq, hpair⟩ := h
    have hs' : s' = q.1 := (congrArg Prod.fst hpair).symm
    rcases end_turn_some_dest hq with h1 | h1
    · rw [hs', h1]
      exact hp
    · rw [hs', h1, endTurnState_players]
      exact hp
  | timeoutOp =>
    simp only [applyOp, Option.map_eq_some'] at h
    obtain ⟨q, hq, hpair⟩ := h
    have hs' : s' = q.1 := (congrArg Prod.fst hpair).symm
    obtain ⟨ev0, hpk⟩ := timeout_some_dest hq
    obtain ⟨-, -, -, -, hq1, -⟩ := pick_some_dest hpk
    rw [hs', hq1]
    intro p hmem
    rcases List.mem_or_eq_of_mem_set hmem with h1 | h1
    · exact hp p h1
    · rw [h1]
      exact pickedPlayer_inv _ _

/-- C5: in every state reachable from `init_game` by engine operations,
every player's `total_score` equals `sum_score` of that player's pick
history (face 3 scores 0, other faces score their value; the stored pick
values are already face-scored, on which `sum_score` is the identity
sum). The hypotheses say the game starts from intact players — each
initial player already satisfies the equation (trivially so for fresh
players with no picks and total 0) — and that the library shuffle returns
a rearrangement of its input. Every successful `pick` re-establishes the
equation for the acting player by recomputing the total from the full
history. -/
theorem c5_total_score_invariant (rngByte : Nat → Nat → Nat)
    (shuffle : Nat → List Player → List Player) (seed : Nat)
    (players : List Player)
    (hinit : ∀ p ∈ players, p.total_score = sum_score p.picks)
    (hshuffle : ∀ p ∈ shuffle (Nat.xor seed 24301) players, p ∈ players) :
    ∀ s, Reach rngByte shuffle seed players s →
      ∀ p ∈ s.players, p.total_score = sum_score p.picks := by
  intro s h
  induction h with
  | init =>
    intro p hmem
    exact hinit p (hshuffle p (by simpa [init_game] using hmem))
  | step _ hstep ih => exact applyOp_players_inv rngByte hstep ih

/-- Witness for C5: a one-step reachable state of a fresh two-player game
(the identity shuffle stands in for the seeded permutation). -/
theorem c5_witness :
    (examplePlayer "a").total_score = sum_score (examplePlayer "a").picks :=
  c5_total_score_invariant (fun _ _ => 0) (fun _ l => l) 0
    [examplePlayer "a", examplePlayer "b"]
    (by decide) (fun p hp => hp)
    (init_game (fun _ l => l) 0 [examplePlayer "a", examplePlayer "b"])
    Reach.init (examplePlayer "a") (by decide)

/-! ### C6: timeout_autoplay always plays the Amateur policy -/

theorem length_filter_lt {l : List Nat} {p : Nat → Bool} {a : Nat}
    (ha : a ∈ l) (hpa : ¬ p a = true) : (l.filter p).length < l.length := by
  induction l with
  | nil => cases ha
  | cons x xs ih =>
    rcases List.mem_cons.mp ha with h1 | h2
    · subst h1
      rw [List.filter_cons_of_neg hpa]
      have hle := List.length_filter_le p xs
      simp only [List.length_cons]
      omega
    · by_cases hx : p x = true
      · rw [List.filter_cons_of_pos hx]
        simpa using Nat.succ_lt_succ (ih h2)
      · rw [List.filter_cons_of_neg hx]
        have hlt := ih h2
        simp only [List.length_cons]
        omega

theorem set_getD_self : ∀ (l : List Player) (i : Nat),
    l.set i (l.getD i default) = l
  | [], _ => rfl
  | _ :: _, 0 => rfl
  | a :: t, i + 1 => congrArg (a :: ·) (set_getD_self t i)

theorem getD_map_stripP : ∀ (l : List Player) (i : Nat),
    (l.map stripP).getD i default = stripP (l.getD i default)
  | [], _ => rfl
  | _ :: _, 0 => rfl
  | _ :: t, i + 1 => getD_map_stripP t i

theorem amateurPicksBase_ne_nil (s : State) : amateurPicksBase s ≠ [] := by
  unfold amateurPicksBase
  rcases hca : s.leader_to_beat with _ | leader <;> simp only [hca]
  · simp
  · split <;> simp

theorem amateur_ne_nil (rng : Nat → Nat) (s : State) : amateur_policy rng s ≠ [] := by
  unfold amateur_policy
  split
  · next h => exact h
  · split
    · rw [ne_eq, List.reverse_eq_nil_iff]
      exact amateurPicksBase_ne_nil s
    · exact amateurPicksBase_ne_nil s

theorem mem_amateurPicksBase_lt {s : State} (hne : s.last_faces ≠ []) :
    ∀ k ∈ amateurPicksBase s, k < s.last_faces.length := by
  intro k hk
  unfold amateurPicksBase at hk
  rcases hca : s.leader_to_beat with _ | leader <;> simp only [hca] at hk
  · simp only [List.mem_singleton] at hk
    rw [hk]
    exact lowestIdx_lt hne
  · split at hk
    · rcases List.mem_cons.mp hk with h1 | h2
      · rw [h1]
        exact lowestIdx_lt hne
      · exact (mem_extraOnesOf.mp h2).1
    · simp only [List.mem_singleton] at hk
      rw [hk]
      exact lowestIdx_lt hne

theorem amateur_mem_lt (rng : Nat → Nat) {s : State} (hne : s.last_faces ≠ []) :
    ∀ j ∈ amateur_policy rng s, j < s.last_faces.length := by
  intro j hj
  unfold amateur_policy at hj
  split at hj
  · exact (mem_threesOf.mp hj).1
  · split at hj
    · exact mem_amateurPicksBase_lt hne j (List.mem_reverse.mp hj)
    · exact mem_amateurPicksBase_lt hne j hj

theorem pickState_remaining_lt {s : State} {idxs : List Nat}
    (hnonempty : idxs ≠ []) (hbound : ∀ i ∈ idxs, i < s.last_faces.length) :
    (pickState s idxs).remaining_dice < s.last_faces.length := by
  show (remainingFaces s.last_faces idxs).length < s.last_faces.length
  unfold remainingFaces
  rw [List.length_map]
  rcases List.exists_mem_of_ne_nil idxs hnonempty with ⟨a, ha⟩
  have hmem : a ∈ List.range s.last_faces.length := List.mem_range.mpr (hbound a ha)
  have hlt := @length_filter_lt (List.range s.last_faces.length)
    (fun i => ¬ i ∈ idxs) a hmem (by simpa using ha)
  calc ((List.range s.last_faces.length).filter (fun i => ¬ i ∈ idxs)).length
      < (List.range s.last_faces.length).length := hlt
    _ = s.last_faces.length := List.length_range _

theorem hash_stripS (s : State) : hash_state_stub (stripS s) = hash_state_stub s := by
  unfold hash_state_stub
  have h : (stripS s).players.getD (stripS s).turn_idx default
      = stripP (s.players.getD s.turn_idx default) := getD_map_stripP s.players s.turn_idx
  rw [h]
  rfl

theorem compute_leader_stripS (s : State) :
    compute_leader_to_beat (stripS s) = compute_leader_to_beat s := by
  have hfold : ∀ cur : String,
      (stripS s).players.foldl (leader_step cur) (U32MAX, false)
        = s.players.foldl (leader_step cur) (U32MAX, false) := by
    intro cur
    show (s.players.map stripP).foldl (leader_step cur) (U32MAX, false) = _
    rw [List.foldl_map]
    congr 1
  have hcur : ((stripS s).players.getD (stripS s).turn_idx default).id
      = (s.players.getD s.turn_idx default).id := by
    show ((s.players.map stripP).getD s.turn_idx default).id = _
    rw [getD_map_stripP]
    rfl
  unfold compute_leader_to_beat
  rw [hcur, hfold]

theorem amateurEvLine_stripS (s : State) : amateurEvLine (stripS s) = amateurEvLine s := by
  unfold amateurEvLine
  have hp : ((stripS s).players.getD (stripS s).turn_idx default).picks
      = (s.players.getD s.turn_idx default).picks := by
    show ((s.players.map stripP).getD s.turn_idx default).picks = _
    rw [getD_map_stripP]
    rfl
  rw [hp]
  rfl

theorem amateurPicksBase_stripS (s : State) :
    amateurPicksBase (stripS s) = amateurPicksBase s := by
  unfold amateurPicksBase
  have h1 : (stripS s).leader_to_beat = s.leader_to_beat := rfl
  rw [h1, amateurEvLine_stripS]
  rfl

theorem amateur_stripS (rng : Nat → Nat) (s : State) :
    amateur_policy rng (stripS s) = amateur_policy rng s := by
  unfold amateur_policy
  have h2 : (stripS s).last_faces = s.last_faces := rfl
  rw [h2, amateurPicksBase_stripS]

theorem pickedPlayer_stripS (s : State) (idxs : List Nat) :
    pickedPlayer (stripS s) idxs = stripP (pickedPlayer s idxs) := by
  unfold pickedPlayer
  have h : (stripS s).players.getD (stripS s).turn_idx default
      = stripP (s.players.getD s.turn_idx default) := getD_map_stripP s.players s.turn_idx
  rw [h]
  have h2 : (stripS s).last_faces = s.last_faces := rfl
  rw [h2]
  simp [stripP]

theorem pickState_stripS (s : State) (idxs : List Nat) :
    pickState (stripS s) idxs = stripS (pickState s idxs) := by
  unfold pickState
  rw [pickedPlayer_stripS]
  unfold stripS
  simp [List.map_set]

theorem pickEvent_stripS (s : State) (idxs : List Nat) :
    pickEvent (stripS s) idxs = pickEvent s idxs := by
  unfold pickEvent
  rw [pickState_stripS, hash_stripS]
  rfl

theorem pick_stripS (s : State) (indices : List Nat) :
    pick (stripS s) indices = (pick s indices).map (fun q => (stripS q.1, q.2)) := by
  unfold pick
  have h2 : (stripS s).last_faces = s.last_faces := rfl
  have h3 : (stripS s).players.length = s.players.length := by
    show (s.players.map stripP).length = _
    exact List.length_map _ _
  have h4 : (stripS s).turn_idx = s.turn_idx := rfl
  simp only [h2, h3, h4]
  by_cases c1 : s.last_faces = []
  · simp [c1]
  · by_cases c2 : indices = []
    · simp [c1, c2]
    · by_cases c3 : ((sortDedup indices).all
          (fun i => decide (i < s.last_faces.length))) = true
      · by_cases c4 : s.turn_idx < s.players.length
        · simp [c1, c2, c3, c4, pickState_stripS, pickEvent_stripS]
        · simp [c1, c2, c3, c4]
      · simp [c1, c2, c3]

theorem timeout_stripS (rngByte : Nat → Nat → Nat) (s : State) :
    timeout_autoplay rngByte (stripS s)
      = (timeout_autoplay rngByte s).map (fun q => (stripS q.1, q.2)) := by
  have ha : timeout_autoplay rngByte (stripS s)
      = (pick { stripS s with leader_to_beat := compute_leader_to_beat s }
          (amateur_policy
            (rngByte (Nat.xor (stripS s).seed ((stripS s).events_seq * 104729 % UINT64)))
            { stripS s with leader_to_beat := compute_leader_to_beat s })).map
          (fun q => (q.1, { seq := q.2.seq, ty := EventType.TimeoutAutoplay,
                            payload := Payload.timeoutP q.2.payload "amateur_v1",
                            state_hash := q.2.state_hash })) := by
    unfold timeout_autoplay
    rw [compute_leader_stripS]
  have hb : ({ stripS s with leader_to_beat := compute_leader_to_beat s } : State)
      = stripS { s with leader_to_beat := compute_leader_to_beat s } := rfl
  rw [hb, amateur_stripS, pick_stripS] at ha
  rw [ha]
  have hc : timeout_autoplay rngByte s
      = (pick { s with leader_to_beat := compute_leader_to_beat s }
          (amateur_policy
            (rngByte (Nat.xor (stripS s).seed ((stripS s).events_seq * 104729 % UINT64)))
            { s with leader_to_beat := compute_leader_to_beat s })).map
          (fun q => (q.1, { seq := q.2.seq, ty := EventType.TimeoutAutoplay,
                            payload := Payload.timeoutP q.2.payload "amateur_v1",
                            state_hash := q.2.state_hash })) := rfl
  rw [hc, Option.map_map, Option.map_map]
  rfl

theorem stripS_withBotLevel (s : State) (lvl : Option BotLevel) :
    stripS (withBotLevel s lvl) = stripS s := by
  unfold stripS withBotLevel
  simp only [List.map_set]
  have h : stripP (setBotLevel (s.players.getD s.turn_idx default) lvl)
      = (s.players.map stripP).getD s.turn_idx default := by
    rw [getD_map_stripP]
    rfl
  rw [h, set_getD_self]

theorem timeout_success_core (s1 : State) (rng : Nat → Nat)
    (hne : s1.last_faces ≠ []) (hidx : s1.turn_idx < s1.players.length) :
    ∃ t ev, (pick s1 (amateur_policy rng s1)).map
        (fun q => (q.1, ({ seq := q.2.seq, ty := EventType.TimeoutAutoplay,
                           payload := Payload.timeoutP q.2.payload "amateur_v1",
                           state_hash := q.2.state_hash } : Event))) = some (t, ev) ∧
      ev.ty = EventType.TimeoutAutoplay ∧
      t.remaining_dice < s1.last_faces.length := by
  have hdne := amateur_ne_nil rng s1
  have hsd : ∀ i ∈ sortDedup (amateur_policy rng s1), i < s1.last_faces.length :=
    fun i hi => amateur_mem_lt rng hne i (mem_sortDedup.mp hi)
  have hpk := pick_some_of s1 (amateur_policy rng s1) hne hdne hsd hidx
  refine ⟨pickState s1 (sortDedup (amateur_policy rng s1)),
    { seq := (pickEvent s1 (sortDedup (amateur_policy rng s1))).seq,
      ty := EventType.TimeoutAutoplay,
      payload := Payload.timeoutP
        (pickEvent s1 (sortDedup (amateur_policy rng s1))).payload "amateur_v1",
      state_hash := (pickEvent s1 (sortDedup (amateur_policy rng s1))).state_hash },
    ?_, rfl, ?_⟩
  · rw [hpk]
    rfl
  · exact pickState_remaining_lt (sortDedup_ne_nil hdne) hsd

theorem timeout_success (rngByte : Nat → Nat → Nat) (s : State)
    (hne : s.last_faces ≠ [])
    (hlen : s.last_faces.length = s.remaining_dice)
    (hidx : s.turn_idx < s.players.length) :
    ∃ t ev, timeout_autoplay rngByte s = some (t, ev) ∧
      ev.ty = EventType.TimeoutAutoplay ∧
      t.remaining_dice < s.remaining_dice := by
  obtain ⟨t, ev, h1, h2, h3⟩ := timeout_success_core
    { s with leader_to_beat := compute_leader_to_beat s }
    (rngByte (Nat.xor s.seed (s.events_seq * 104729 % UINT64)))
    hne hidx
  refine ⟨t, ev, h1, h2, ?_⟩
  rw [← hlen]
  exact h3

/-- C6: for every state with an active roll, `timeout_autoplay` always
invokes the Amateur policy regardless of the timed-out player's configured
bot level — the produced event and post-state (modulo the bot-level field
itself) are identical for every `bot_level`, including `Pro` and
non-bots — and it always produces a `TimeoutAutoplay` (pick-class) event
after which `remaining_dice` is strictly smaller than before the call.
The active-roll premise is made precise as `last_faces` non-empty with
`last_faces.length = remaining_dice` (the state of affairs directly after
a roll), plus a valid `turn_idx`. -/
theorem c6_timeout_always_amateur (rngByte : Nat → Nat → Nat) (s : State)
    (hne : s.last_faces ≠ [])
    (hlen : s.last_faces.length = s.remaining_dice)
    (hidx : s.turn_idx < s.players.length) :
    ∀ lvl lvl' : Option BotLevel,
      (∃ t ev, timeout_autoplay rngByte (withBotLevel s lvl) = some (t, ev) ∧
        ev.ty = EventType.TimeoutAutoplay ∧
        t.remaining_dice < s.remaining_dice) ∧
      (timeout_autoplay rngByte (withBotLevel s lvl')).map (fun q => (stripS q.1, q.2))
        = (timeout_autoplay rngByte (withBotLevel s lvl)).map (fun q => (stripS q.1, q.2)) := by
  intro lvl lvl'
  constructor
  · have hidx2 : (withBotLevel s lvl).turn_idx < (withBotLevel s lvl).players.length := by
      show s.turn_idx < (s.players.set s.turn_idx _).length
      rw [List.length_set]
      exact hidx
    exact timeout_success rngByte (withBotLevel s lvl) hne hlen hidx2
  · calc (timeout_autoplay rngByte (withBotLevel s lvl')).map (fun q => (stripS q.1, q.2))
        = timeout_autoplay rngByte (stripS (withBotLevel s lvl')) :=
          (timeout_stripS rngByte (withBotLevel s lvl')).symm
      _ = timeout_autoplay rngByte (stripS (withBotLevel s lvl)) := by
          rw [stripS_withBotLevel, stripS_withBotLevel]
      _ = (timeout_autoplay rngByte (withBotLevel s lvl)).map (fun q => (stripS q.1, q.2)) :=
          timeout_stripS rngByte (withBotLevel s lvl)

/-- Witness for C6 on `exampleState` with the acting player set to a Pro
bot: the timeout still picks by the Amateur policy, emits a
`TimeoutAutoplay` event, shrinks `remaining_dice`, and agrees (modulo the
bot-level field) with the run where the player has no bot level at all. -/
theorem c6_witness :
    (∃ t ev,
        timeout_autoplay (fun _ _ => 1) (withBotLevel exampleState (some BotLevel.Pro))
          = some (t, ev) ∧
        ev.ty = EventType.TimeoutAutoplay ∧
        t.remaining_dice < exampleState.remaining_dice) ∧
      (timeout_autoplay (fun _ _ => 1) (withBotLevel exampleState none)).map
          (fun q => (stripS q.1, q.2))
        = (timeout_autoplay (fun _ _ => 1)
            (withBotLevel exampleState (some BotLevel.Pro))).map
          (fun q => (stripS q.1, q.2)) :=
  c6_timeout_always_amateur (fun _ _ => 1) exampleState (by decide) rfl (by decide)
    (some BotLevel.Pro) none

end LowRoller
